import Mathlib

/-!
Shallow embedding of the verless repository's core:
  * `src/fs/fs.go` — `StreamFiles` with its filter chain, the predefined
    filters `MarkdownOnly` and `NoUnderscores`, and the package-level
    variable `ErrStreaming` (threaded explicitly as state).
  * `src/core/create.go` — `CreateProject` and `CreateTheme` over an
    explicit filesystem state.
Paths are modelled as Lean `String`s; all modelled paths are ASCII, so
Go's byte indexing (`len`, slicing) coincides with character indexing.
-/

namespace Verless

/-- Go `strings.HasPrefix s pre`: whether `pre` is a prefix of `s`. -/
def hasPrefixGo (s pre : String) : Bool := pre.data.isPrefixOf s.data

/-- Backward scan of `filepath.Ext`: Go iterates from the end of the path
until a path separator, returning the suffix from the last dot.  `seen`
holds the characters already scanned (in forward order); the second
argument is the remaining characters of the reversed path. -/
def extScan : List Char → List Char → List Char
  | _, [] => []
  | seen, c :: rest =>
    if c = '/' then []
    else if c = '.' then c :: seen
    else extScan (c :: seen) rest

/-- Go `filepath.Ext`: the suffix beginning at the final dot in the final
path element; empty when there is no dot. -/
def Ext (p : String) : String := ⟨extScan [] p.data.reverse⟩

/-- Go `filepath.Base`: the last element of the path, after stripping
trailing separators; `"."` for the empty path, `"/"` for all-separator
paths. -/
def Base (p : String) : String :=
  if p = "" then "."
  else
    let r := p.data.reverse.dropWhile (fun c => c = '/')
    if r = [] then "/"
    else ⟨(r.takeWhile (fun c => c ≠ '/')).reverse⟩

/-- `fs.MarkdownOnly` (fs.go lines 14-16): only lets Markdown files pass. -/
def MarkdownOnly : String → Bool := fun file => Ext file == ".md"

/-- `fs.NoUnderscores` (fs.go lines 20-23): rejects files whose base name
starts with an underscore. -/
def NoUnderscores : String → Bool := fun file => !(hasPrefixGo (Base file) "_")

/-- Go `filepath.Join(p, name)` for already-clean arguments; for `"."`
the joined path is just `name` (Join cleans `./x` to `x`). -/
def joinGo (p name : String) : String := if p = "." then name else p ++ "/" ++ name

/-- Go byte slicing `s[n:]`; on the ASCII paths modelled here byte and
character positions coincide. -/
def sliceFrom (s : String) (n : Nat) : String := ⟨s.data.drop n⟩

/-- One invocation of the walk callback by `filepath.Walk`: the visited
path, whether it is a directory, and the error passed in (non-nil when
the walk failed to read the entry). -/
structure WalkEnt where
  path : String
  isDir : Bool
  err : Option String
deriving DecidableEq

/-- Observable channel events of `StreamFiles`: a value sent on the
`files` channel, or a `close(files)`. -/
inductive Event where
  | emit (p : String)
  | closeChan
deriving DecidableEq

/-- The filter loop of `StreamFiles` (fs.go lines 45-49): every filter
must return true, short-circuiting on the first false. -/
def passFilters : List (String → Bool) → String → Bool
  | [], _ => true
  | f :: fs, file => if !(f file) then false else passFilters fs file

/-- Relativization of an emitted path (fs.go lines 51-58): for root `"."`
the traversal path is emitted as-is; otherwise the first `len(path)`
bytes are stripped. -/
def relPath (root file : String) : String :=
  if root == "." then file else sliceFrom file root.length

/-- The walk callback of `StreamFiles` (fs.go lines 38-61): a non-nil
incoming error aborts the walk; directories are skipped; a file passing
every filter is emitted relativized. -/
def walkFnS (root : String) (filters : List (String → Bool)) (e : WalkEnt) :
    Except String (Option String) :=
  match e.err with
  | some m => Except.error m
  | none =>
    if e.isDir then Except.ok none
    else if passFilters filters e.path then Except.ok (some (relPath root e.path))
    else Except.ok none

/-- `filepath.Walk` driving the callback over the sequence of visited
entries: emitted paths are collected until the callback returns an
error, which aborts the walk and becomes its return value. -/
def runWalk (root : String) (filters : List (String → Bool)) :
    List WalkEnt → List Event × Option String
  | [] => ([], none)
  | e :: es =>
    match walkFnS root filters e with
    | Except.error m => ([], some m)
    | Except.ok none => runWalk root filters es
    | Except.ok (some p) =>
      let r := runWalk root filters es
      (Event.emit p :: r.1, r.2)

/-- Everything one call to `StreamFiles` does to its channel (`events`)
and returns (`ret`). -/
structure StreamResult where
  events : List Event
  ret : Option String
deriving DecidableEq

/-- `fs.StreamFiles` (fs.go lines 31-65).  `errStreaming` is the value of
the package-level variable `ErrStreaming` before the call; the second
component of the result is its value afterwards.  `pathExists` is what
`os.Stat(path)` reports; `walk` is the sequence of entries
`filepath.Walk` visits when the root exists. -/
def StreamFiles (errStreaming : Option String) (pathExists : Bool) (path : String)
    (walk : List WalkEnt) (filters : List (String → Bool)) :
    StreamResult × Option String :=
  if !pathExists then
    ({ events := [Event.closeChan], ret := none }, errStreaming)
  else
    let w := runWalk path filters walk
    ({ events := w.1 ++ [Event.closeChan], ret := w.2 }, w.2)

/-- The paths sent through the channel, in order. -/
def emittedPaths (r : StreamResult) : List String :=
  r.events.filterMap fun e =>
    match e with
    | Event.emit p => some p
    | Event.closeChan => none

/-- A directory tree, used to derive the entry sequence `filepath.Walk`
produces on an existing root.  Children are listed in the (lexical)
order the walk visits them. -/
inductive FsTree where
  | file (name : String)
  | dir (name : String) (children : List FsTree)

/-- The name of the node itself. -/
def FsTree.nodeName : FsTree → String
  | .file n => n
  | .dir n _ => n

mutual

/-- Entries visited by `filepath.Walk` rooted at path `p` over tree `t`:
each visited path paired with whether it is a directory. -/
def walkEntries (p : String) : FsTree → List (String × Bool)
  | .file _ => [(p, false)]
  | .dir _ cs => (p, true) :: walkEntriesList p cs

/-- Walk entries of a list of children of the directory at `p`. -/
def walkEntriesList (p : String) : List FsTree → List (String × Bool)
  | [] => []
  | c :: cs => walkEntries (joinGo p c.nodeName) c ++ walkEntriesList p cs

end

/-- Walk entries of a tree as callback invocations (no read errors). -/
def entriesOfTree (root : String) (t : FsTree) : List WalkEnt :=
  (walkEntries root t).map fun pd => ⟨pd.1, pd.2, none⟩

/-- `StreamFiles` run against a directory tree: `none` means the root
does not exist. -/
def streamFilesTree (g : Option String) (root : String) (w : Option FsTree)
    (filters : List (String → Bool)) : StreamResult × Option String :=
  match w with
  | none => StreamFiles g false root [] filters
  | some t => StreamFiles g true root (entriesOfTree root t) filters

/-- The scenario tree: current directory containing `notes.md`,
`_draft.md` and `image.png`. -/
def exampleTree : FsTree :=
  .dir "." [.file "notes.md", .file "_draft.md", .file "image.png"]

/-!
## Core filesystem state (src/core/create.go)

The filesystem is an association list of paths to entries; the newest
entry for a path shadows older ones, so creation is a cons.  Ancestor
directories exist implicitly: a path exists when some entry equals it or
lies strictly below it, mirroring a POSIX tree where a file's parent
directories are real.  The current-directory marker `"."` always exists.
Failure of `os.MkdirAll`/`ioutil.WriteFile` is not modelled (no claim
depends on it); failure of removal is modelled by the oracle `rf`.
-/

/-- A filesystem entry: a directory or a file with byte content. -/
inductive FsEntry where
  | dir
  | file (content : List Nat)
deriving DecidableEq

/-- Whether the entry is a directory. -/
def FsEntry.isDir : FsEntry → Bool
  | .dir => true
  | .file _ => false

/-- Filesystem state: paths with their entries, newest first. -/
abbrev Fs : Type := List (String × FsEntry)

/-- `os.Stat` succeeding: the path is `"."`, an entry's exact path, or an
implicit ancestor of some entry. -/
def statExists (fs : Fs) (p : String) : Bool :=
  p == "." || fs.any fun e => e.1 == p || hasPrefixGo e.1 (p ++ "/")

/-- Whether the path is a directory: an explicit directory entry, or an
implicit ancestor of some entry. -/
def isDirFs (fs : Fs) (p : String) : Bool :=
  fs.any fun e => (e.1 == p && e.2.isDir) || hasPrefixGo e.1 (p ++ "/")

/-- `os.RemoveAll p`: drop the entry at `p` and everything below it. -/
def removeAllFs (fs : Fs) (p : String) : Fs :=
  fs.filter fun e => !(e.1 == p || hasPrefixGo e.1 (p ++ "/"))

/-- `os.Remove p` on a plain file: drop the entry at `p`. -/
def removeFs (fs : Fs) (p : String) : Fs :=
  fs.filter fun e => !(e.1 == p)

/-- `os.MkdirAll`: record the directory (ancestors exist implicitly;
creating an existing directory is not an error). -/
def mkdirAllFs (fs : Fs) (d : String) : Fs := (d, FsEntry.dir) :: fs

/-- `core.createFiles` (create.go lines 128-135): write each file in
turn.  Writes do not fail in the model, so the loop never aborts. -/
def createFiles (fs : Fs) (files : List (String × List Nat)) : Fs :=
  files.foldl (fun a pc => (pc.1, FsEntry.file pc.2) :: a) fs

/-- Modelled from the spec: `fs.IsSafeToRemove` is not part of src/ (only
its caller is).  Per the spec, "safe to remove" is false whenever the
target exists and overwrite was not explicitly requested; true if the
target does not exist, or overwrite was requested. -/
def IsSafeToRemove (fs : Fs) (path : String) (force : Bool) : Bool :=
  !(statExists fs path) || force

/-- The error values of src/core/create.go; `osError` stands for a raw
operating-system error returned unwrapped. -/
inductive CoreErr where
  | projectExists
  | projectNotExists
  | themeExists
  | removalFailure
  | osError
deriving DecidableEq

/-- The message carried by each named error value (create.go lines 15-24
and line 63); a raw OS error has no fixed message. -/
def coreErrMsg : CoreErr → Option String
  | .projectExists => some "project already exists, use --overwrite to remove it"
  | .projectNotExists => some "project doesn't exist yet, create it first"
  | .themeExists => some "theme already exists, remove it first"
  | .removalFailure => some "Cannot remove existing files from current directory."
  | .osError => none

/-- Modelled from the spec: the `config` constant `ContentDir` (the
`content/` directory of section 6). -/
def ContentDir : String := "content"

/-- Modelled from the spec: the `config` constant `DefaultTheme`
(the default theme's name; the exact name is a collaborator detail). -/
def DefaultTheme : String := "default"

/-- Modelled from the spec: the `config` constant `ListPageTpl` (the
list-page template file name). -/
def ListPageTpl : String := "list.html"

/-- Modelled from the spec: the `config` constant `PageTpl` (the
single-page template file name). -/
def PageTpl : String := "page.html"

/-- Modelled from the spec: `theme.Dir(project, name)`, the named theme's
subdirectory inside the project (exact directory naming is supplied by
the external theme-layout collaborator). -/
def themeDir (project name : String) : String :=
  joinGo (joinGo project "themes") name

/-- Modelled from the spec: `theme.TemplateDir(project, name)`. -/
def TemplateDir (project name : String) : String :=
  joinGo (themeDir project name) "templates"

/-- Modelled from the spec: `theme.CssDir(project, name)`. -/
def CssDir (project name : String) : String :=
  joinGo (themeDir project name) "css"

/-- Modelled from the spec: `theme.JsDir(project, name)`. -/
def JsDir (project name : String) : String :=
  joinGo (themeDir project name) "js"

/-- Modelled from the spec: `theme.Exists(project, name)`, the existence
check rooted at the theme's subdirectory inside the project. -/
def themeExists (fs : Fs) (project name : String) : Bool :=
  statExists fs (themeDir project name)

/-- Modelled from the spec: the default byte contents (`defaultConfig`
etc.) are excluded from the core spec; placeholders stand for them. -/
def defaultConfig : List Nat := [1]

/-- Modelled from the spec: placeholder for the `.gitignore` bytes. -/
def defaultGitignore : List Nat := [2]

/-- Modelled from the spec: placeholder for the non-empty default
list-page template bytes. -/
def defaultTpl : List Nat := [3]

/-- Modelled from the spec: placeholder for the default stylesheet. -/
def defaultCss : List Nat := [4]

/-- Modelled from the spec: placeholder for the default theme config. -/
def defaultThemeConfig : List Nat := [5]

/-- `core.CreateProjectOptions` (create.go lines 27-29). -/
structure CreateProjectOptions where
  Overwrite : Bool

/-- The body of the cleanup walk callback (create.go lines 44-61) at one
visited path, acting on the current filesystem: a lstat/read error for a
vanished entry is skipped, the root marker `"."` is left alone,
directories are removed recursively, plain files individually; `rf p`
says removal of `p` fails with an unexpected error. -/
def cleanupStep (rf : String → Bool) (fs : Fs) (p : String) : Except Unit Fs :=
  if !(statExists fs p) then Except.ok fs
  else if p != "." then
    if isDirFs fs p then
      if rf p then Except.error () else Except.ok (removeAllFs fs p)
    else
      if rf p then Except.error () else Except.ok (removeFs fs p)
  else Except.ok fs

/-- The first path component of an entry path (the name under `"."`). -/
def firstComponent (p : String) : String := ⟨p.data.takeWhile (fun c => c ≠ '/')⟩

/-- The names `filepath.Walk(".")` obtains by reading the current
directory: the distinct top-level components of the state's entries. -/
def topLevelNames (fs : Fs) : List String :=
  (fs.map fun e => firstComponent e.1).dedup

/-- Run the cleanup callback over the visited paths in order; the first
error aborts the walk (second component true). -/
def cleanupWalkAux (rf : String → Bool) (fs : Fs) : List String → Fs × Bool
  | [] => (fs, false)
  | n :: ns =>
    match cleanupStep rf fs n with
    | Except.error _ => (fs, true)
    | Except.ok fs' => cleanupWalkAux rf fs' ns

/-- The `filepath.Walk(".")` cleanup of `CreateProject` (create.go lines
44-61): visit `"."` first, then each top-level entry of the initial
state.  (Entries below a visited top-level entry are never reached: the
callback removes the entry, so listing it fails with not-exist, which
the callback skips.) -/
def cleanupCurrentDir (rf : String → Bool) (fs : Fs) : Fs × Bool :=
  cleanupWalkAux rf fs ("." :: topLevelNames fs)

/-- The directories `CreateProject` creates (create.go lines 67-71). -/
def projectDirs (path : String) : List String :=
  [joinGo path ContentDir, TemplateDir path DefaultTheme, CssDir path DefaultTheme]

/-- The files `CreateProject` writes (create.go lines 79-85). -/
def projectFiles (path : String) : List (String × List Nat) :=
  [(joinGo path "verless.yml", defaultConfig),
   (joinGo path ".gitignore", defaultGitignore),
   (joinGo (TemplateDir path DefaultTheme) ListPageTpl, defaultTpl),
   (joinGo (TemplateDir path DefaultTheme) PageTpl, []),
   (joinGo (CssDir path DefaultTheme) "style.css", defaultCss)]

/-- `core.CreateProject` (create.go lines 34-88) over filesystem state
`fs`; `rf` is the removal-failure oracle.  Returns the new state and the
returned error, if any. -/
def CreateProject (rf : String → Bool) (fs : Fs) (path : String)
    (options : CreateProjectOptions) : Fs × Option CoreErr :=
  if !(IsSafeToRemove fs path options.Overwrite) then
    (fs, some CoreErr.projectExists)
  else
    let cleaned :=
      if path != "." then
        if rf path then (fs, true) else (removeAllFs fs path, false)
      else cleanupCurrentDir rf fs
    if cleaned.2 then
      (cleaned.1, some (if path != "." then CoreErr.osError else CoreErr.removalFailure))
    else
      let fs2 := (projectDirs path).foldl mkdirAllFs cleaned.1
      (createFiles fs2 (projectFiles path), none)

/-- `core.CreateThemeOptions` (create.go lines 91-93). -/
structure CreateThemeOptions where
  Project : String

/-- The directories `CreateTheme` creates (create.go lines 107-111). -/
def themeDirs (project name : String) : List String :=
  [TemplateDir project name, CssDir project name, JsDir project name]

/-- The files `CreateTheme` writes (create.go lines 119-123). -/
def themeFiles (project name : String) : List (String × List Nat) :=
  [(joinGo (TemplateDir project name) ListPageTpl, []),
   (joinGo (TemplateDir project name) PageTpl, []),
   (joinGo (themeDir project name) "theme.yml", defaultThemeConfig)]

/-- `core.CreateTheme` (create.go lines 98-126) over filesystem state
`fs`.  Returns the new state and the returned error, if any. -/
def CreateTheme (fs : Fs) (options : CreateThemeOptions) (name : String) :
    Fs × Option CoreErr :=
  if !(statExists fs options.Project) then
    (fs, some CoreErr.projectNotExists)
  else if themeExists fs options.Project name then
    (fs, some CoreErr.themeExists)
  else
    let fs1 := (themeDirs options.Project name).foldl mkdirAllFs fs
    (createFiles fs1 (themeFiles options.Project name), none)

/-! ## Lemmas about the streaming component -/

theorem passFilters_eq_all (fs : List (String → Bool)) (p : String) :
    passFilters fs p = fs.all fun f => f p := by
  induction fs with
  | nil => rfl
  | cons f fs ih =>
    simp only [passFilters, List.all_cons, ih]
    cases f p <;> simp

theorem passFilters_perm {l l' : List (String → Bool)} (h : l.Perm l') (p : String) :
    passFilters l p = passFilters l' p := by
  rw [passFilters_eq_all, passFilters_eq_all, Bool.eq_iff_iff]
  simp only [List.all_eq_true]
  exact ⟨fun H f hf => H f (h.mem_iff.mpr hf), fun H f hf => H f (h.mem_iff.mp hf)⟩

theorem walkFnS_ok_some {root : String} {filters : List (String → Bool)} {e : WalkEnt}
    {p : String} (h : walkFnS root filters e = Except.ok (some p)) :
    e.err = none ∧ e.isDir = false ∧ passFilters filters e.path = true ∧
      p = relPath root e.path := by
  unfold walkFnS at h
  cases he : e.err with
  | some m => simp only [he] at h; simp at h
  | none =>
    simp only [he] at h
    cases hd : e.isDir with
    | true => simp only [hd, if_true] at h; simp at h
    | false =>
      simp only [hd, Bool.false_eq_true, if_false] at h
      cases hp : passFilters filters e.path with
      | false => simp only [hp, Bool.false_eq_true, if_false] at h; simp at h
      | true =>
        simp only [hp, if_true, Except.ok.injEq, Option.some.injEq] at h
        exact ⟨rfl, rfl, rfl, h.symm⟩

theorem runWalk_noErr (root : String) (filters : List (String → Bool))
    (entries : List WalkEnt) :
    (∀ e ∈ entries, e.err = none) →
    runWalk root filters entries =
      ((entries.filter fun e => !e.isDir && passFilters filters e.path).map
        fun e => Event.emit (relPath root e.path), none) := by
  induction entries with
  | nil => intro _; rfl
  | cons e es ih =>
    intro h
    have he : e.err = none := h e (List.mem_cons_self _ _)
    have hes : ∀ x ∈ es, x.err = none := fun x hx => h x (List.mem_cons_of_mem _ hx)
    rw [runWalk]
    simp only [walkFnS, he]
    cases hd : e.isDir with
    | true => simp [List.filter_cons, hd, ih hes]
    | false =>
      cases hp : passFilters filters e.path with
      | true => simp [List.filter_cons, hd, hp, ih hes]
      | false => simp [List.filter_cons, hd, hp, ih hes]

theorem runWalk_no_close (root : String) (filters : List (String → Bool))
    (entries : List WalkEnt) : Event.closeChan ∉ (runWalk root filters entries).1 := by
  induction entries with
  | nil => simp [runWalk]
  | cons e es ih =>
    rw [runWalk]
    cases hw : walkFnS root filters e with
    | error m => simp
    | ok o =>
      cases o with
      | none => simpa using ih
      | some p => simpa using ih

theorem runWalk_emit_mem (root : String) (filters : List (String → Bool))
    (entries : List WalkEnt) : ∀ p : String,
    Event.emit p ∈ (runWalk root filters entries).1 →
    ∃ e, e ∈ entries ∧ e.err = none ∧ e.isDir = false ∧
      passFilters filters e.path = true ∧ p = relPath root e.path := by
  induction entries with
  | nil => intro p hp; simp [runWalk] at hp
  | cons e es ih =>
    intro p hp
    rw [runWalk] at hp
    cases hw : walkFnS root filters e with
    | error m => simp only [hw] at hp; simp at hp
    | ok o =>
      cases o with
      | none =>
        simp only [hw] at hp
        obtain ⟨x, hx, hrest⟩ := ih p hp
        exact ⟨x, List.mem_cons_of_mem _ hx, hrest⟩
      | some q =>
        simp only [hw] at hp
        rcases List.mem_cons.mp hp with h1 | h2
        · obtain ⟨he, hd, hf, hq⟩ := walkFnS_ok_some hw
          have hpq : p = q := by injection h1
          exact ⟨e, List.mem_cons_self _ _, he, hd, hf, hpq ▸ hq⟩
        · obtain ⟨x, hx, hrest⟩ := ih p h2
          exact ⟨x, List.mem_cons_of_mem _ hx, hrest⟩

theorem emittedPaths_mk (evs : List Event) (r : Option String) :
    emittedPaths { events := evs ++ [Event.closeChan], ret := r } =
      emittedPaths { events := evs, ret := r } := by
  simp [emittedPaths, List.filterMap_append]

theorem filterMap_emit_map (f : WalkEnt → String) (l : List WalkEnt) :
    emittedPaths { events := l.map fun e => Event.emit (f e), ret := none } = l.map f := by
  induction l with
  | nil => rfl
  | cons x xs ih => simpa [emittedPaths] using ih

theorem streamFiles_noErr (g : Option String) (root : String) (entries : List WalkEnt)
    (filters : List (String → Bool)) (h : ∀ e ∈ entries, e.err = none) :
    emittedPaths (StreamFiles g true root entries filters).1 =
      (entries.filter fun e => !e.isDir && passFilters filters e.path).map
        fun e => relPath root e.path := by
  rw [StreamFiles]
  simp only [Bool.not_true, Bool.false_eq_true, if_false]
  rw [runWalk_noErr root filters entries h]
  rw [emittedPaths_mk, filterMap_emit_map]

theorem relPath_dot (file : String) : relPath "." file = file := rfl

theorem sliceFrom_append (root rest : String) :
    sliceFrom (root ++ "/" ++ rest) root.length = "/" ++ rest := by
  apply String.ext
  show (root ++ "/" ++ rest).data.drop root.length = ("/" ++ rest).data
  rw [String.data_append, String.data_append, String.data_append]
  rw [List.append_assoc]
  exact List.drop_left root.data _

/-! ## Claims about the streaming component -/

/-- Claim C2: on every execution path of `StreamFiles` — nonexistent
root, successful walk, failed walk — the output channel is closed
exactly once, the close is the last channel event (so on failure the
channel is closed before the error is returned), and only successful
path values are ever sent through the data channel, never the error. -/
theorem claim_C2 (g : Option String) (pathExists : Bool) (root : String)
    (entries : List WalkEnt) (filters : List (String → Bool)) :
    ((StreamFiles g pathExists root entries filters).1.events.count Event.closeChan = 1)
    ∧ ((StreamFiles g pathExists root entries filters).1.events.getLast? =
        some Event.closeChan)
    ∧ (∀ p, Event.emit p ∈ (StreamFiles g pathExists root entries filters).1.events →
        ∃ e, e ∈ entries ∧ e.err = none ∧ e.isDir = false ∧
          passFilters filters e.path = true ∧ p = relPath root e.path) := by
  cases pathExists with
  | false =>
    refine ⟨rfl, rfl, ?_⟩
    intro p hp
    simp [StreamFiles] at hp
  | true =>
    rw [StreamFiles]
    simp only [Bool.not_true, Bool.false_eq_true, if_false]
    refine ⟨?_, ?_, ?_⟩
    · rw [List.count_append]
      have h0 : (runWalk root filters entries).1.count Event.closeChan = 0 :=
        List.count_eq_zero.mpr (runWalk_no_close root filters entries)
      rw [h0]
      rfl
    · exact List.getLast?_concat _
    · intro p hp
      rcases List.mem_append.mp hp with h1 | h2
      · exact runWalk_emit_mem root filters entries p h1
      · simp at h2

/-- Claim C4: for a root that does not exist, `StreamFiles` emits zero
paths, closes the channel (exactly once), and returns no error. -/
theorem claim_C4 (g : Option String) (root : String) (entries : List WalkEnt)
    (filters : List (String → Bool)) :
    emittedPaths (StreamFiles g false root entries filters).1 = []
    ∧ (StreamFiles g false root entries filters).1.events.count Event.closeChan = 1
    ∧ (StreamFiles g false root entries filters).1.ret = none :=
  ⟨rfl, rfl, rfl⟩

/-- Claim C5: every file passing all filters is emitted as the traversal
path itself when the root is `"."`, and otherwise as the traversal path
with its first `len(root)` bytes stripped. -/
theorem claim_C5 (g : Option String) (root : String) (entries : List WalkEnt)
    (filters : List (String → Bool)) (h : ∀ e ∈ entries, e.err = none) :
    emittedPaths (StreamFiles g true root entries filters).1 =
      (entries.filter fun e => !e.isDir && passFilters filters e.path).map
        fun e => if root == "." then e.path else sliceFrom e.path root.length := by
  rw [streamFiles_noErr g root entries filters h]
  simp only [relPath]

/-- Witness for claim C5 at a concrete walk. -/
theorem claim_C5_witness :
    emittedPaths (StreamFiles none true "site"
        [⟨"site", true, none⟩, ⟨"site/about.md", false, none⟩] [MarkdownOnly]).1 =
      ["/about.md"] := by
  rw [claim_C5 none "site" [⟨"site", true, none⟩, ⟨"site/about.md", false, none⟩]
    [MarkdownOnly] (by decide)]
  decide

/-- Claim C9: for a root other than `"."`, a matched file whose
traversal path is the root, a separator, and a remainder is emitted as
the separator followed by the remainder — the strip removes exactly
`len(root)` leading bytes and leaves the separator in place.  In
particular root `"site"` with file `"site/about.md"` emits
`"/about.md"`. -/
theorem claim_C9 :
    (∀ (g : Option String) (root rest : String) (filters : List (String → Bool)),
      root ≠ "." → passFilters filters (root ++ "/" ++ rest) = true →
      emittedPaths (StreamFiles g true root [⟨root ++ "/" ++ rest, false, none⟩]
          filters).1 = ["/" ++ rest]
      ∧ ("/" ++ rest).data.head? = some '/')
    ∧ emittedPaths (StreamFiles none true "site" [⟨"site/about.md", false, none⟩] []).1 =
        ["/about.md"] := by
  constructor
  · intro g root rest filters hroot hpass
    constructor
    · rw [streamFiles_noErr g root [⟨root ++ "/" ++ rest, false, none⟩] filters
        (by intro e he; simp at he; rw [he])]
      simp only [List.filter_cons, hpass, Bool.not_false, Bool.true_and, if_true]
      simp only [List.filter_nil, List.map_cons, List.map_nil, relPath]
      rw [beq_eq_false_iff_ne.mpr hroot]
      simp only [Bool.false_eq_true, if_false, sliceFrom_append]
    · rw [String.data_append]
      rfl
  · decide

/-- Witness for claim C9: the concrete root/remainder instance. -/
theorem claim_C9_witness :
    emittedPaths (StreamFiles none true "site"
        [⟨"site" ++ "/" ++ "about.md", false, none⟩] []).1 = ["/" ++ "about.md"]
    ∧ ("/" ++ "about.md").data.head? = some '/' :=
  claim_C9.1 none "site" "about.md" [] (by decide) (by decide)

/-- Claim C10: `StreamFiles` stores the walk result in the package-level
variable `ErrStreaming` and returns that value; a call whose root exists
overwrites the variable with its own walk's error, while the
nonexistent-root early return leaves it unchanged — so after a failed
walk, a later call with a nonexistent root returns nil while the
variable still holds the earlier walk's error. -/
theorem claim_C10 :
    (∀ (g : Option String) (root : String) (entries : List WalkEnt)
        (filters : List (String → Bool)),
      (StreamFiles g true root entries filters).2 = (runWalk root filters entries).2
      ∧ (StreamFiles g true root entries filters).1.ret = (runWalk root filters entries).2)
    ∧ (∀ (g : Option String) (root : String) (entries : List WalkEnt)
        (filters : List (String → Bool)),
      (StreamFiles g false root entries filters).2 = g
      ∧ (StreamFiles g false root entries filters).1.ret = none)
    ∧ ((StreamFiles none true "site" [⟨"site/about.md", false, some "walk failed"⟩] []).2 =
        some "walk failed"
      ∧ (StreamFiles
          (StreamFiles none true "site" [⟨"site/about.md", false, some "walk failed"⟩] []).2
          false "missing" [] []).1.ret = none
      ∧ (StreamFiles
          (StreamFiles none true "site" [⟨"site/about.md", false, some "walk failed"⟩] []).2
          false "missing" [] []).2 = some "walk failed") :=
  ⟨fun _ _ _ _ => ⟨rfl, rfl⟩, fun _ _ _ _ => ⟨rfl, rfl⟩, by decide, by decide, by decide⟩

/-- Witness for claim C2: a concrete emitted path comes from a passing
entry of the walk. -/
theorem claim_C2_witness :
    ∃ e, e ∈ [(⟨"notes.md", false, none⟩ : WalkEnt)] ∧ e.err = none ∧ e.isDir = false ∧
      passFilters [] e.path = true ∧ "notes.md" = relPath "." e.path :=
  (claim_C2 none true "." [⟨"notes.md", false, none⟩] []).2.2 "notes.md" (by decide)

/-- The traversal paths of the regular files of the tree (directories
are traversed, never emitted). -/
def regularFiles (root : String) (t : FsTree) : List String :=
  ((walkEntries root t).filter fun pd => !pd.2).map Prod.fst

theorem entriesOfTree_err (root : String) (t : FsTree) :
    ∀ e ∈ entriesOfTree root t, e.err = none := by
  intro e he
  rcases List.mem_map.mp he with ⟨pd, _, rfl⟩
  rfl

theorem filter_map_walkEnt (filters : List (String → Bool)) (root : String)
    (l : List (String × Bool)) :
    ((l.map fun pd => (⟨pd.1, pd.2, none⟩ : WalkEnt)).filter
        (fun e => !e.isDir && passFilters filters e.path)).map
      (fun e => relPath root e.path) =
      (l.filter fun pd => !pd.2 && passFilters filters pd.1).map
        fun pd => relPath root pd.1 := by
  induction l with
  | nil => rfl
  | cons x xs ih =>
    simp only [List.map_cons, List.filter_cons]
    cases hb : (!x.2 && passFilters filters x.1) with
    | true => simp only [hb, if_true, List.map_cons, ih]
    | false => simp only [hb, Bool.false_eq_true, if_false, ih]

theorem emitted_tree (g : Option String) (root : String) (t : FsTree)
    (filters : List (String → Bool)) :
    emittedPaths (streamFilesTree g root (some t) filters).1 =
      ((walkEntries root t).filter fun pd => !pd.2 && passFilters filters pd.1).map
        fun pd => relPath root pd.1 := by
  show emittedPaths (StreamFiles g true root (entriesOfTree root t) filters).1 = _
  rw [streamFiles_noErr g root _ filters (entriesOfTree_err root t)]
  exact filter_map_walkEnt filters root (walkEntries root t)

theorem filter_regularFiles (filters : List (String → Bool)) (l : List (String × Bool)) :
    ((l.filter fun pd => !pd.2).map Prod.fst).filter (fun p => passFilters filters p) =
      (l.filter fun pd => !pd.2 && passFilters filters pd.1).map Prod.fst := by
  induction l with
  | nil => rfl
  | cons x xs ih =>
    cases h2 : (!x.2) with
    | true =>
      cases hp : passFilters filters x.1 with
      | true => simp [List.filter_cons, h2, hp, ih]
      | false => simp [List.filter_cons, h2, hp, ih]
    | false => simp [List.filter_cons, h2, ih]

/-- Claim C1: the set of paths emitted by `StreamFiles` over a tree
equals the set of regular files for which every predicate returns true;
the emitted output is independent of the order of the predicates (the
chain is a short-circuiting logical AND); and for root `"."` containing
`notes.md`, `_draft.md`, `image.png` with filters
`[MarkdownOnly, NoUnderscores]`, the emitted set is exactly
`{"notes.md"}`. -/
theorem claim_C1 (t : FsTree) (g : Option String) (root : String)
    (filters filters' : List (String → Bool)) (hperm : filters.Perm filters') :
    ((emittedPaths (streamFilesTree g "." (some t) filters).1).toFinset =
      ((regularFiles "." t).filter fun p => passFilters filters p).toFinset)
    ∧ (emittedPaths (streamFilesTree g root (some t) filters).1 =
        emittedPaths (streamFilesTree g root (some t) filters').1)
    ∧ emittedPaths (streamFilesTree none "." (some exampleTree)
        [MarkdownOnly, NoUnderscores]).1 = ["notes.md"] := by
  refine ⟨?_, ?_, by decide⟩
  · rw [emitted_tree]
    have hmap : ((walkEntries "." t).filter
          fun pd => !pd.2 && passFilters filters pd.1).map (fun pd => relPath "." pd.1) =
        ((walkEntries "." t).filter fun pd => !pd.2 && passFilters filters pd.1).map
          Prod.fst := by
      apply List.map_congr_left
      intro pd _
      exact relPath_dot pd.1
    rw [hmap, regularFiles, filter_regularFiles]
  · rw [emitted_tree, emitted_tree]
    congr 1
    apply List.filter_congr
    intro pd _
    rw [passFilters_perm hperm]

/-- Witness for claim C1 at the scenario input. -/
theorem claim_C1_witness :
    emittedPaths (streamFilesTree none "." (some exampleTree)
        [MarkdownOnly, NoUnderscores]).1 = ["notes.md"] :=
  (claim_C1 exampleTree none "." [MarkdownOnly, NoUnderscores]
    [MarkdownOnly, NoUnderscores] (List.Perm.refl _)).2.2

/-! ## Lemmas and claims about the provisioner -/

/-- Claim C3: `CreateProject` on an existing path without overwrite
returns the already-exists error and performs no filesystem mutation. -/
theorem claim_C3 (rf : String → Bool) (fs : Fs) (path : String)
    (h : statExists fs path = true) :
    CreateProject rf fs path ⟨false⟩ = (fs, some CoreErr.projectExists) := by
  rw [CreateProject]
  simp [IsSafeToRemove, h]

/-- Witness for claim C3 at a concrete existing project. -/
theorem claim_C3_witness :
    CreateProject (fun _ => false) [("site", FsEntry.dir)] "site" ⟨false⟩ =
      ([("site", FsEntry.dir)], some CoreErr.projectExists) :=
  claim_C3 (fun _ => false) [("site", FsEntry.dir)] "site" (by decide)

/-- Claim C7: `CreateTheme` on a nonexistent project returns the
project-not-exists error and creates nothing. -/
theorem claim_C7 (fs : Fs) (options : CreateThemeOptions) (name : String)
    (h : statExists fs options.Project = false) :
    CreateTheme fs options name = (fs, some CoreErr.projectNotExists) := by
  rw [CreateTheme]
  simp [h]

/-- Witness for claim C7 on an empty filesystem. -/
theorem claim_C7_witness :
    CreateTheme [] ⟨"nope"⟩ "dark" = (([] : Fs), some CoreErr.projectNotExists) :=
  claim_C7 [] ⟨"nope"⟩ "dark" (by decide)

theorem statExists_cons (x : String × FsEntry) (fs : Fs) (p : String)
    (h : statExists fs p = true) : statExists (x :: fs) p = true := by
  simp only [statExists, List.any_cons, Bool.or_eq_true] at h ⊢
  rcases h with h | h
  · exact Or.inl h
  · exact Or.inr (Or.inr h)

theorem statExists_foldl_mkdir (ds : List String) (p : String) :
    ∀ fs : Fs, statExists fs p = true → statExists (ds.foldl mkdirAllFs fs) p = true := by
  induction ds with
  | nil => intro fs h; exact h
  | cons d ds ih => intro fs h; exact ih _ (statExists_cons _ _ _ h)

theorem statExists_createFiles (files : List (String × List Nat)) (p : String) :
    ∀ fs : Fs, statExists fs p = true → statExists (createFiles fs files) p = true := by
  induction files with
  | nil => intro fs h; exact h
  | cons f fl ih => intro fs h; exact ih _ (statExists_cons _ _ _ h)

theorem isPrefixOf_self_append (l t : List Char) : l.isPrefixOf (l ++ t) = true :=
  ( List.isPrefixOf_iff_prefix).mpr ⟨t, rfl⟩

theorem hasPrefixGo_append (a b : String) : hasPrefixGo (a ++ b) a = true := by
  unfold hasPrefixGo
  rw [String.data_append]
  exact isPrefixOf_self_append a.data b.data

theorem append_slash_ne_dot (a b : String) : a ++ "/" ++ b ≠ "." := by
  intro h
  have hd : (a ++ "/" ++ b).data = (".").data := congrArg String.data h
  rw [String.data_append, String.data_append] at hd
  have hm : '/' ∈ a.data ++ ("/").data ++ b.data := by
    apply List.mem_append_left
    apply List.mem_append_right
    show '/' ∈ ['/']
    exact List.mem_cons_self _ _
  rw [hd] at hm
  exact absurd hm (by decide)

theorem joinGo_ne (a b : String) (h : a ≠ ".") : joinGo a b = a ++ "/" ++ b := by
  unfold joinGo
  rw [if_neg h]

theorem themesJoin_ne_dot (p : String) : joinGo p "themes" ≠ "." := by
  by_cases hp : p = "."
  · rw [hp]; decide
  · rw [joinGo_ne p "themes" hp]; exact append_slash_ne_dot p "themes"

theorem themeDir_ne_dot (p n : String) : themeDir p n ≠ "." := by
  unfold themeDir
  rw [joinGo_ne _ n (themesJoin_ne_dot p)]
  exact append_slash_ne_dot _ n

theorem statExists_theme_after_mkdirs (fs : Fs) (p n : String) :
    statExists ((themeDirs p n).foldl mkdirAllFs fs) (themeDir p n) = true := by
  show statExists ((JsDir p n, FsEntry.dir) :: (CssDir p n, FsEntry.dir) ::
      (TemplateDir p n, FsEntry.dir) :: fs) (themeDir p n) = true
  have hT : hasPrefixGo (TemplateDir p n) (themeDir p n ++ "/") = true := by
    unfold TemplateDir
    rw [joinGo_ne _ "templates" (themeDir_ne_dot p n)]
    exact hasPrefixGo_append (themeDir p n ++ "/") "templates"
  unfold statExists
  rw [Bool.or_eq_true]
  right
  rw [List.any_eq_true]
  refine ⟨(TemplateDir p n, FsEntry.dir),
    List.mem_cons_of_mem _ (List.mem_cons_of_mem _ (List.mem_cons_self _ _)), ?_⟩
  rw [Bool.or_eq_true]
  right
  exact hT

theorem themeExists_after (fs : Fs) (p n : String) :
    themeExists (createFiles ((themeDirs p n).foldl mkdirAllFs fs) (themeFiles p n))
      p n = true := by
  unfold themeExists
  exact statExists_createFiles _ _ _ (statExists_theme_after_mkdirs fs p n)

/-- Claim C8: when `CreateTheme` succeeds, a second call with the same
project and theme name returns the theme-exists error and leaves the
first call's state untouched. -/
theorem claim_C8 (fs : Fs) (options : CreateThemeOptions) (name : String)
    (h : (CreateTheme fs options name).2 = none) :
    CreateTheme (CreateTheme fs options name).1 options name =
      ((CreateTheme fs options name).1, some CoreErr.themeExists) := by
  cases hp : statExists fs options.Project with
  | false =>
    rw [CreateTheme] at h
    simp [hp] at h
  | true =>
    cases ht : themeExists fs options.Project name with
    | true =>
      rw [CreateTheme] at h
      simp [hp, ht] at h
    | false =>
      have hfs1 : CreateTheme fs options name =
          (createFiles ((themeDirs options.Project name).foldl mkdirAllFs fs)
            (themeFiles options.Project name), none) := by
        rw [CreateTheme]
        simp only [hp, ht, Bool.not_true, Bool.false_eq_true, if_false]
      rw [hfs1]
      rw [CreateTheme]
      have h1 : statExists (createFiles ((themeDirs options.Project name).foldl
          mkdirAllFs fs) (themeFiles options.Project name)) options.Project = true :=
        statExists_createFiles _ _ _ (statExists_foldl_mkdir _ _ _ hp)
      have h2 : themeExists (createFiles ((themeDirs options.Project name).foldl
          mkdirAllFs fs) (themeFiles options.Project name)) options.Project name = true :=
        themeExists_after fs options.Project name
      simp only [h1, h2, Bool.not_true, Bool.false_eq_true, if_false, if_true]

/-- Witness for claim C8 at a concrete project and theme. -/
theorem claim_C8_witness :
    CreateTheme (CreateTheme [("proj", FsEntry.dir)] ⟨"proj"⟩ "dark").1 ⟨"proj"⟩ "dark" =
      ((CreateTheme [("proj", FsEntry.dir)] ⟨"proj"⟩ "dark").1,
        some CoreErr.themeExists) :=
  claim_C8 [("proj", FsEntry.dir)] ⟨"proj"⟩ "dark" (by decide)

/-! ## The current-directory cleanup of CreateProject -/

theorem takeWhile_idem (p : Char → Bool) (l : List Char) :
    (l.takeWhile p).takeWhile p = l.takeWhile p := by
  induction l with
  | nil => rfl
  | cons c cs ih =>
    cases hc : p c with
    | true => simp [List.takeWhile_cons, hc, ih]
    | false => simp [List.takeWhile_cons, hc]

theorem firstComponent_idem (s : String) :
    firstComponent (firstComponent s) = firstComponent s := by
  unfold firstComponent
  exact congrArg String.mk (takeWhile_idem _ s.data)

theorem dropWhile_head_false (p : Char → Bool) :
    ∀ (l : List Char) (c : Char) (cs : List Char),
      l.dropWhile p = c :: cs → p c = false := by
  intro l
  induction l with
  | nil => intro c cs h; simp [List.dropWhile] at h
  | cons a as ih =>
    intro c cs h
    rw [List.dropWhile_cons] at h
    cases ha : p a with
    | true => rw [ha] at h; simp at h; exact ih c cs h
    | false =>
      rw [ha] at h
      simp at h
      rw [← h.1]
      exact ha

theorem takeWhile_append_cons (p : Char → Bool) :
    ∀ (l : List Char) (c : Char) (cs : List Char), (∀ x ∈ l, p x = true) → p c = false →
      (l ++ c :: cs).takeWhile p = l := by
  intro l
  induction l with
  | nil => intro c cs _ hc; simp [List.takeWhile_cons, hc]
  | cons a as ih =>
    intro c cs hall hc
    have ha := hall a (List.mem_cons_self _ _)
    rw [List.cons_append, List.takeWhile_cons, if_pos ha,
      ih c cs (fun x hx => hall x (List.mem_cons_of_mem _ hx)) hc]

theorem fc_all (n : String) (hn : firstComponent n = n) :
    ∀ c ∈ n.data, (decide (c ≠ '/')) = true := by
  intro c hc
  have hd : n.data.takeWhile (fun c => decide (c ≠ '/')) = n.data :=
    congrArg String.data hn
  rw [← hd] at hc
  have h2 := List.mem_takeWhile_imp hc
  exact h2

theorem fc_cases (e1 : String) :
    e1 = firstComponent e1 ∨ hasPrefixGo e1 (firstComponent e1 ++ "/") = true := by
  have hsplit := List.takeWhile_append_dropWhile (fun c => decide (c ≠ '/')) e1.data
  cases hdw : e1.data.dropWhile (fun c => decide (c ≠ '/')) with
  | nil =>
    left
    apply String.ext
    rw [hdw, List.append_nil] at hsplit
    exact hsplit.symm
  | cons c cs =>
    right
    have hc : (decide (c ≠ '/')) = false := dropWhile_head_false _ e1.data c cs hdw
    have hc' : c = '/' := not_not.mp (of_decide_eq_false hc)
    rw [hdw, hc'] at hsplit
    unfold hasPrefixGo
    rw [String.data_append]
    have he2 : e1.data = ((firstComponent e1).data ++ ("/").data) ++ cs := by
      rw [List.append_assoc]
      exact hsplit.symm
    rw [he2]
    exact isPrefixOf_self_append _ cs

theorem remove_cond_eq (n : String) (hn : firstComponent n = n) (e1 : String) :
    (e1 == n || hasPrefixGo e1 (n ++ "/")) = (firstComponent e1 == n) := by
  rw [Bool.eq_iff_iff, Bool.or_eq_true, beq_iff_eq, beq_iff_eq]
  constructor
  · rintro (h | h)
    · rw [h]; exact hn
    · unfold hasPrefixGo at h
      obtain ⟨rest, hrest⟩ := ( List.isPrefixOf_iff_prefix).mp h
      apply String.ext
      show e1.data.takeWhile (fun c => decide (c ≠ '/')) = n.data
      have he1 : e1.data = n.data ++ '/' :: rest := by
        rw [← hrest, String.data_append, List.append_assoc]
        rfl
      rw [he1]
      exact takeWhile_append_cons _ n.data '/' rest (fc_all n hn) (by decide)
  · intro h
    rcases fc_cases e1 with h1 | h2
    · left; rw [h1, h]
    · right; rw [h] at h2; exact h2

theorem cleanupStep_noFail (fs : Fs) (n : String) (hn : firstComponent n = n)
    (hdot : n ≠ ".") :
    cleanupStep (fun _ => false) fs n =
      Except.ok (fs.filter fun e => !(firstComponent e.1 == n)) := by
  unfold cleanupStep
  cases hex : statExists fs n with
  | false =>
    simp only [hex, Bool.not_false, if_true]
    congr 1
    symm
    apply List.filter_eq_self.mpr
    intro e he
    have hx : statExists fs n = false := hex
    simp only [statExists, Bool.or_eq_false_iff, List.any_eq_false] at hx
    have hcond := hx.2 e he
    cases hfc : (firstComponent e.1 == n) with
    | false => rfl
    | true =>
      exfalso
      have heq : firstComponent e.1 = n := beq_iff_eq.mp hfc
      rcases fc_cases e.1 with h1 | h2
      · apply hcond
        rw [Bool.or_eq_true]
        left
        rw [beq_iff_eq, h1, heq]
      · apply hcond
        rw [Bool.or_eq_true]
        right
        rw [heq] at h2
        exact h2
  | true =>
    simp only [hex, Bool.not_true, Bool.false_eq_true, if_false]
    rw [if_pos (bne_iff_ne.mpr hdot)]
    cases hdir : isDirFs fs n with
    | true =>
      simp only [hdir, if_true]
      show Except.ok (removeAllFs fs n) = _
      congr 1
      unfold removeAllFs
      have hcond : ∀ e1, (e1 == n || hasPrefixGo e1 (n ++ "/")) =
          (firstComponent e1 == n) := remove_cond_eq n hn
      simp only [hcond]
    | false =>
      simp only [hdir, Bool.false_eq_true, if_false]
      show Except.ok (removeFs fs n) = _
      congr 1
      unfold removeFs
      apply List.filter_congr
      intro e he
      congr 1
      rw [Bool.eq_iff_iff, beq_iff_eq, beq_iff_eq]
      constructor
      · intro h; rw [h]; exact hn
      · intro h
        rcases fc_cases e.1 with h1 | h2
        · rw [h1, h]
        · exfalso
          rw [h] at h2
          have hdt : isDirFs fs n = true := by
            unfold isDirFs
            rw [List.any_eq_true]
            refine ⟨e, he, ?_⟩
            rw [Bool.or_eq_true]
            right
            exact h2
          rw [hdir] at hdt
          exact Bool.false_ne_true hdt

theorem cleanupWalkAux_noFail (names : List String) :
    ∀ fs : Fs, (∀ n ∈ names, firstComponent n = n) → (∀ n ∈ names, n ≠ ".") →
      (∀ e ∈ fs, firstComponent e.1 ∈ names) →
      cleanupWalkAux (fun _ => false) fs names = ([], false) := by
  induction names with
  | nil =>
    intro fs _ _ hmem
    have hfs : fs = [] := by
      rw [List.eq_nil_iff_forall_not_mem]
      intro e he
      exact absurd (hmem e he) (List.not_mem_nil _)
    rw [hfs]
    rfl
  | cons n ns ih =>
    intro fs hcanon hdots hmem
    rw [cleanupWalkAux]
    rw [cleanupStep_noFail fs n (hcanon n (List.mem_cons_self _ _))
      (hdots n (List.mem_cons_self _ _))]
    show cleanupWalkAux (fun _ => false)
        (fs.filter fun e => !(firstComponent e.1 == n)) ns = ([], false)
    apply ih
    · intro m hm; exact hcanon m (List.mem_cons_of_mem _ hm)
    · intro m hm; exact hdots m (List.mem_cons_of_mem _ hm)
    · intro e he
      have hin := List.mem_filter.mp he
      have h1 := hmem e hin.1
      have h2 := hin.2
      rcases List.mem_cons.mp h1 with h | h
      · exfalso
        rw [h, beq_self_eq_true, Bool.not_true] at h2
        exact Bool.false_ne_true h2
      · exact h

theorem cleanupCurrentDir_noFail (fs : Fs)
    (hwf : ∀ e ∈ fs, firstComponent e.1 ≠ ".") :
    cleanupCurrentDir (fun _ => false) fs = ([], false) := by
  unfold cleanupCurrentDir
  have hstep : cleanupStep (fun _ => false) fs "." = Except.ok fs := by
    unfold cleanupStep
    have hex : statExists fs "." = true := by
      unfold statExists
      rw [Bool.or_eq_true]
      left
      rfl
    simp only [hex, Bool.not_true, Bool.false_eq_true, if_false]
    simp only [bne_self_eq_false, Bool.false_eq_true, if_false]
  rw [cleanupWalkAux]
  simp only [hstep]
  apply cleanupWalkAux_noFail
  · intro n hn
    rcases List.mem_map.mp (List.mem_dedup.mp hn) with ⟨e, _, rfl⟩
    exact firstComponent_idem e.1
  · intro n hn
    rcases List.mem_map.mp (List.mem_dedup.mp hn) with ⟨e, he, rfl⟩
    exact hwf e he
  · intro e he
    exact List.mem_dedup.mpr (List.mem_map_of_mem _ he)

theorem createProject_abort (rf : String → Bool) (fs : Fs)
    (h : (cleanupCurrentDir rf fs).2 = true) :
    CreateProject rf fs "." ⟨true⟩ =
      ((cleanupCurrentDir rf fs).1, some CoreErr.removalFailure) := by
  rw [CreateProject]
  simp only [IsSafeToRemove, Bool.or_true, Bool.not_true, Bool.false_eq_true, if_false]
  simp only [bne_self_eq_false, Bool.false_eq_true, if_false]
  simp only [h, if_true]

/-- Claim C6: the current-directory cleanup of `CreateProject` is
iterative and resilient — a vanished entry (not-exist error mid-walk) is
skipped without error, the root marker `"."` is never removed,
directories are removed recursively and plain files individually, the
full pass removes every entry while `"."` remains, and an unexpected
removal error aborts the operation with the descriptive failure
message. -/
theorem claim_C6 (rf : String → Bool) (fs : Fs) :
    (∀ p, statExists fs p = false → cleanupStep rf fs p = Except.ok fs)
    ∧ (cleanupStep rf fs "." = Except.ok fs)
    ∧ (∀ p, statExists fs p = true → p ≠ "." → isDirFs fs p = true → rf p = false →
        cleanupStep rf fs p = Except.ok (removeAllFs fs p))
    ∧ (∀ p, statExists fs p = true → p ≠ "." → isDirFs fs p = false → rf p = false →
        cleanupStep rf fs p = Except.ok (removeFs fs p))
    ∧ ((∀ e ∈ fs, firstComponent e.1 ≠ ".") →
        cleanupCurrentDir (fun _ => false) fs = ([], false))
    ∧ ((cleanupCurrentDir rf fs).2 = true →
        CreateProject rf fs "." ⟨true⟩ =
          ((cleanupCurrentDir rf fs).1, some CoreErr.removalFailure))
    ∧ coreErrMsg CoreErr.removalFailure =
        some "Cannot remove existing files from current directory." := by
  refine ⟨?_, ?_, ?_, ?_, cleanupCurrentDir_noFail fs, createProject_abort rf fs, rfl⟩
  · intro p hex
    unfold cleanupStep
    simp [hex]
  · unfold cleanupStep
    have hex : statExists fs "." = true := by
      unfold statExists
      rw [Bool.or_eq_true]
      left
      rfl
    simp [hex]
  · intro p hex hne hdir hrf
    unfold cleanupStep
    simp [hex, hdir, hrf, bne_iff_ne.mpr hne]
  · intro p hex hne hdir hrf
    unfold cleanupStep
    simp [hex, hdir, hrf, bne_iff_ne.mpr hne]

/-- Witness for claim C6: the cleanup empties a concrete state. -/
theorem claim_C6_witness :
    cleanupCurrentDir (fun _ => false)
        [("a", FsEntry.dir), ("a/x.md", FsEntry.file []), ("b.txt", FsEntry.file [])] =
      ([], false) :=
  (claim_C6 (fun _ => false) [("a", FsEntry.dir), ("a/x.md", FsEntry.file []),
    ("b.txt", FsEntry.file [])]).2.2.2.2.1 (by decide)

end Verless
